import Mathlib

/-!
Verification development for the Anki AI-chat addon core
(`ai_chat_collection.py`, `ai_chat_simple.py`).

Text is modelled as `List Char` (the Python `str` of the source).  The
library boundaries of the source (Python's `json` module, `urllib`
transport, and the Qt widget layer) are modelled explicitly and noted at
each definition.  All definitions are executable and translated from the
source functions named in their doc comments.
-/

namespace AnkiAIChat

/-- Characters treated as whitespace by Python `str.strip()` and by the
`re` module's `\s` class (ASCII subset; the source only ever meets ASCII
whitespace in the relevant paths). -/
def isPyWs (c : Char) : Bool :=
  c = ' ' || c = '\t' || c = '\n' || c = '\r' || c = '\x0b' || c = '\x0c'

/-- Python `str.strip()` on the left: drop leading whitespace. -/
def stripLeft (l : List Char) : List Char :=
  l.dropWhile isPyWs

/-- Python `str.strip()`: drop leading and trailing whitespace. -/
def pyStrip (l : List Char) : List Char :=
  ((l.dropWhile isPyWs).reverse.dropWhile isPyWs).reverse

/-- Python `str.lower()` (ASCII subset, which is all the source compares). -/
def lowerL (l : List Char) : List Char :=
  l.map Char.toLower

/-- Python `str.startswith(p)`. -/
def startsWithL : List Char → List Char → Bool
  | [], _ => true
  | _ :: _, [] => false
  | p :: ps, c :: cs => p = c && startsWithL ps cs

/-- Python `p in s` (substring containment). -/
def containsL (pat : List Char) : List Char → Bool
  | [] => startsWithL pat []
  | c :: cs => startsWithL pat (c :: cs) || containsL pat cs

/-- Python `text.split('\n')`. -/
def splitNl : List Char → List (List Char)
  | [] => [[]]
  | c :: cs =>
    if c = '\n' then [] :: splitNl cs
    else
      match splitNl cs with
      | [] => [[c]]
      | l :: ls => (c :: l) :: ls

/-- The inverse of `splitNl`: re-join lines with newlines. -/
def joinNl : List (List Char) → List Char
  | [] => []
  | [l] => l
  | l :: ls => l ++ '\n' :: joinNl ls

/-- The flashcard output format selected in `format_combo`
(`"cloze" in self.format_combo.currentText().lower()` decides the branch
of `parse_flashcards`). -/
inductive CardFormat where
  | basic
  | cloze
deriving DecidableEq

/-- A parsed flashcard record, the dict produced by
`FlashcardGenerationDialog.parse_flashcards`: either
`\x7b'front': ..., 'back': ...\x7d` or `\x7b'content': ...\x7d`. -/
inductive Flashcard where
  | basicCard (front back : List Char)
  | clozeCard (content : List Char)
deriving DecidableEq

/-- The cloze branch of `FlashcardGenerationDialog.parse_flashcards`
(`ai_chat_collection.py:3634-3652`), one step per source line of the
`for line in lines` loop; `cur` is `current_card`. -/
def parseClozeLoop : List (List Char) → List Char → List Flashcard
  | [], cur =>
    if !cur.isEmpty then [.clozeCard (pyStrip cur)] else []
  | l :: rest, cur =>
    let line := pyStrip l
    if !line.isEmpty && containsL ("\x7b\x7bc".toList) line then
      (if !cur.isEmpty then [.clozeCard (pyStrip cur)] else []) ++
        parseClozeLoop rest line
    else if !line.isEmpty && !cur.isEmpty then
      parseClozeLoop rest (cur ++ '\n' :: line)
    else if line.isEmpty && !cur.isEmpty then
      .clozeCard (pyStrip cur) :: parseClozeLoop rest []
    else
      parseClozeLoop rest cur

/-- The basic branch of `FlashcardGenerationDialog.parse_flashcards`
(`ai_chat_collection.py:3654-3689`), one step per source line of the
`for line in lines` loop; `f`/`b` are `current_front`/`current_back` and
`inF`/`inB` are `in_front`/`in_back`. -/
def parseBasicLoop : List (List Char) → List Char → List Char → Bool → Bool → List Flashcard
  | [], f, b, _, _ =>
    if !f.isEmpty && !b.isEmpty then [.basicCard (pyStrip f) (pyStrip b)] else []
  | l :: rest, f, b, inF, inB =>
    let line := pyStrip l
    if startsWithL ("front:".toList) (lowerL line) then
      (if !f.isEmpty && !b.isEmpty then [.basicCard (pyStrip f) (pyStrip b)] else []) ++
        parseBasicLoop rest (pyStrip (line.drop 6)) [] true false
    else if startsWithL ("back:".toList) (lowerL line) then
      parseBasicLoop rest f (pyStrip (line.drop 5)) false true
    else if !line.isEmpty && inF then
      parseBasicLoop rest (f ++ '\n' :: line) b inF inB
    else if !line.isEmpty && inB then
      parseBasicLoop rest f (b ++ '\n' :: line) inF inB
    else if line.isEmpty && !f.isEmpty && !b.isEmpty then
      .basicCard (pyStrip f) (pyStrip b) :: parseBasicLoop rest [] [] false false
    else
      parseBasicLoop rest f b inF inB

/-- `FlashcardGenerationDialog.parse_flashcards`
(`ai_chat_collection.py:3630-3691`): split the generated text into lines
and run the grammar-specific scanning loop. -/
def parse_flashcards (fmt : CardFormat) (text : List Char) : List Flashcard :=
  match fmt with
  | .cloze => parseClozeLoop (splitNl text) []
  | .basic => parseBasicLoop (splitNl text) [] [] false false




/-! ## StreamingWorker: the server-sent-event decoding loop -/

/-- A JSON value as produced by Python's `json.loads` on the subset the
streaming protocol uses (strings, numbers kept raw, arrays, objects).
This models the `json` standard-library boundary, not repository code. -/
inductive JVal where
  | jstr (s : List Char)
  | jnum (raw : List Char)
  | jarr (elems : List JVal)
  | jobj (fields : List (List Char × JVal))

/-- JSON whitespace accepted between tokens. -/
def skipJWs (l : List Char) : List Char :=
  l.dropWhile isPyWs

/-- Decode one JSON string-escape character (`\u` is outside the subset). -/
def unescapeJ (c : Char) : Option Char :=
  if c = '"' then some '"'
  else if c = '\\' then some '\\'
  else if c = '/' then some '/'
  else if c = 'n' then some '\n'
  else if c = 't' then some '\t'
  else if c = 'r' then some '\r'
  else if c = 'b' then some '\x08'
  else if c = 'f' then some '\x0c'
  else none

/-- Parse the body of a JSON string after the opening quote; returns the
decoded characters and the remainder after the closing quote. -/
def parseJStr : List Char → Option (List Char × List Char)
  | [] => none
  | c :: rest =>
    if c = '"' then some ([], rest)
    else if c = '\\' then
      match rest with
      | [] => none
      | e :: rest2 =>
        match unescapeJ e with
        | none => none
        | some u => (parseJStr rest2).map (fun p => (u :: p.1, p.2))
    else (parseJStr rest).map (fun p => (c :: p.1, p.2))

/-- Parse a JSON number (optional minus, digits, optional fraction;
exponents are outside the subset), keeping the raw characters. -/
def parseJNum (cs : List Char) : Option (List Char × List Char) :=
  let (sign, cs1) :=
    match cs with
    | '-' :: rest => (['-'], rest)
    | _ => (([] : List Char), cs)
  let d1 := cs1.takeWhile Char.isDigit
  let cs2 := cs1.dropWhile Char.isDigit
  if d1.isEmpty then none
  else
    match cs2 with
    | '.' :: cs3 =>
      let d2 := cs3.takeWhile Char.isDigit
      let cs4 := cs3.dropWhile Char.isDigit
      if d2.isEmpty then none
      else some (sign ++ d1 ++ '.' :: d2, cs4)
    | _ => some (sign ++ d1, cs2)

/-- Parsing mode of the single-pass JSON reader: a value, the members of
an object being collected, or the elements of an array being collected. -/
inductive JMode where
  | value
  | members (acc : List (List Char × JVal))
  | elems (acc : List JVal)

/-- Fuel-indexed recursive-descent reader for the JSON subset; fuel
exhaustion yields `none` (treated as a decode failure). -/
def jsonP : Nat → JMode → List Char → Option (JVal × List Char)
  | 0, _, _ => none
  | fuel + 1, .value, cs =>
    match skipJWs cs with
    | [] => none
    | c :: rest =>
      if c = '"' then
        (parseJStr rest).map (fun p => (.jstr p.1, p.2))
      else if c = Char.ofNat 123 then
        match skipJWs rest with
        | [] => none
        | d :: rest2 =>
          if d = Char.ofNat 125 then some (.jobj [], rest2)
          else jsonP fuel (.members []) (d :: rest2)
      else if c = '[' then
        match skipJWs rest with
        | [] => none
        | d :: rest2 =>
          if d = ']' then some (.jarr [], rest2)
          else jsonP fuel (.elems []) (d :: rest2)
      else if c = '-' || c.isDigit then
        (parseJNum (c :: rest)).map (fun p => (.jnum p.1, p.2))
      else none
  | fuel + 1, .members acc, cs =>
    match skipJWs cs with
    | [] => none
    | c :: rest =>
      if c = '"' then
        match parseJStr rest with
        | none => none
        | some (key, rest2) =>
          match skipJWs rest2 with
          | ':' :: rest3 =>
            match jsonP fuel .value rest3 with
            | none => none
            | some (v, rest4) =>
              match skipJWs rest4 with
              | ',' :: rest5 => jsonP fuel (.members (acc ++ [(key, v)])) rest5
              | d :: rest5 =>
                if d = Char.ofNat 125 then some (.jobj (acc ++ [(key, v)]), rest5)
                else none
              | [] => none
          | _ => none
      else none
  | fuel + 1, .elems acc, cs =>
    match jsonP fuel .value cs with
    | none => none
    | some (v, rest) =>
      match skipJWs rest with
      | ',' :: rest2 => jsonP fuel (.elems (acc ++ [v])) rest2
      | ']' :: rest2 => some (.jarr (acc ++ [v]), rest2)
      | _ => none

/-- Python `json.loads` on the protocol subset: parse one value and
require only whitespace to remain. -/
def json_loads (cs : List Char) : Option JVal :=
  match jsonP (cs.length * 2 + 8) .value cs with
  | some (v, rest) => if (skipJWs rest).isEmpty then some v else none
  | none => none

/-- Outcome of processing one `data:` payload, mirroring the Python
control flow in `StreamingWorker.run`:
`skip` = `json.JSONDecodeError` (line skipped), `noContent` = parsed but
no appendable content, `content s` = `choices[0].delta.content` text,
`fatal m` = a non-`JSONDecodeError` exception that escapes to the outer
`except` clause. -/
inductive LineResult where
  | skip
  | noContent
  | content (s : List Char)
  | fatal (msg : List Char)

/-- Python `v == some-string` for a JSON value: only an equal string
compares equal. -/
def isStrEq (key : List Char) : JVal → Bool
  | .jstr s => s = key
  | _ => false

/-- Python `key in v` for a JSON value (`None` encodes `TypeError`). -/
def pyContains (key : List Char) : JVal → Option Bool
  | .jobj fields => some (fields.any (fun p => p.1 = key))
  | .jarr elems => some (elems.any (isStrEq key))
  | .jstr s => some (containsL key s)
  | .jnum _ => none

/-- Python dict lookup with JSON duplicate-key semantics (last wins). -/
def lookupKey (key : List Char) : List (List Char × JVal) → Option JVal
  | [] => none
  | (k, v) :: rest =>
    match lookupKey key rest with
    | some v' => some v'
    | none => if k = key then some v else none

/-- Python `v[key]` for a string key (`None` encodes `TypeError`). -/
def pySubscript (v : JVal) (key : List Char) : Option JVal :=
  match v with
  | .jobj fields => lookupKey key fields
  | _ => none

/-- Python `len(v)` (`None` encodes `TypeError` on numbers). -/
def pyLen : JVal → Option Nat
  | .jstr s => some s.length
  | .jarr elems => some elems.length
  | .jobj fields => some fields.length
  | .jnum _ => none

/-- Python `v[0]` (`None` encodes `KeyError` on a dict; indexing a
string yields a one-character string). -/
def pyIndex0 : JVal → Option JVal
  | .jarr (e :: _) => some e
  | .jstr (c :: _) => some (.jstr [c])
  | _ => none

/-- Python `v.get('delta', \x7b\x7d)`; only dicts have `.get`
(`None` encodes `AttributeError`). -/
def pyGetDelta : JVal → Option JVal
  | .jobj fields => some ((lookupKey ("delta".toList) fields).getD (.jobj []))
  | _ => none

/-- The chunk-inspection block of `StreamingWorker.run`
(`ai_chat_collection.py:1792-1798`):
`if 'choices' in chunk_data and len(chunk_data['choices']) > 0:` then
`delta = chunk_data['choices'][0].get('delta', \x7b\x7d)` and
`if 'content' in delta: ... += delta['content']`.  Any Python
`TypeError`/`KeyError`/`AttributeError` on the way is `fatal` (it is not
a `json.JSONDecodeError`, so it escapes to the outer handler). -/
def deltaContent (chunkData : JVal) : LineResult :=
  match pyContains ("choices".toList) chunkData with
  | none => .fatal ("TypeError".toList)
  | some false => .noContent
  | some true =>
    match pySubscript chunkData ("choices".toList) with
    | none => .fatal ("TypeError".toList)
    | some cv =>
      match pyLen cv with
      | none => .fatal ("TypeError".toList)
      | some n =>
        if n = 0 then .noContent
        else
          match pyIndex0 cv with
          | none => .fatal ("KeyError".toList)
          | some first =>
            match pyGetDelta first with
            | none => .fatal ("AttributeError".toList)
            | some delta =>
              match pyContains ("content".toList) delta with
              | none => .fatal ("TypeError".toList)
              | some false => .noContent
              | some true =>
                match pySubscript delta ("content".toList) with
                | some (.jstr s) => .content s
                | some _ => .fatal ("TypeError".toList)
                | none => .fatal ("TypeError".toList)

/-- Classification of one `data:` payload as `StreamingWorker.run` does:
`json.loads` then the chunk inspection. -/
def jsonClassify (payload : List Char) : LineResult :=
  match json_loads payload with
  | none => .skip
  | some v => deltaContent v

/-- A callback emitted by `StreamingWorker`: the `chunk_received`,
`response_finished` and `error_occurred` Qt signals. -/
inductive StreamEvent where
  | chunk (s : List Char)
  | finished (s : List Char)
  | errored (s : List Char)
deriving DecidableEq

/-- The post-loop emission of `StreamingWorker.run`
(`ai_chat_collection.py:1802-1806`): finished with the accumulated text
if any, otherwise the "No response received" error. -/
def finishEvents (acc : List Char) : List StreamEvent :=
  if !acc.isEmpty then [.finished acc]
  else [.errored ("No response received".toList)]

/-- The body of the `for line in response` loop of `StreamingWorker.run`
plus the post-loop emission (`ai_chat_collection.py:1778-1806`),
parameterised by the payload classifier (the `json` library boundary).
`acc` is `self.accumulated_text`; `[DONE]` breaks out of the loop, a
`fatal` classification jumps to the outer `except` clause. -/
def runLines (classify : List Char → LineResult) (acc : List Char) :
    List (List Char) → List StreamEvent
  | [] => finishEvents acc
  | l :: rest =>
    let line := pyStrip l
    if startsWithL ("data: ".toList) line then
      let payload := line.drop 6
      if payload = ("[DONE]".toList) then finishEvents acc
      else if !payload.isEmpty then
        match classify payload with
        | .content s => .chunk (acc ++ s) :: runLines classify (acc ++ s) rest
        | .skip => runLines classify acc rest
        | .noContent => runLines classify acc rest
        | .fatal m => [.errored m]
      else runLines classify acc rest
    else runLines classify acc rest

/-- `StreamingWorker.run` (`ai_chat_collection.py:1736-1809`): the
transport either fails with an exception message (caught by the outer
`except`, one `error_occurred`) or delivers the response lines, which
are decoded by the streaming loop. -/
def StreamingWorker_run (classify : List Char → LineResult)
    (transport : Except (List Char) (List (List Char))) : List StreamEvent :=
  match transport with
  | .error e => [.errored e]
  | .ok lines => runLines classify [] lines


/-! ## convert_markdown_to_html -/

/-- The `\d` class of the source's regexes (ASCII subset). -/
def isReDigit (c : Char) : Bool :=
  c.isDigit

/-- One line under `re.sub(r'^### (.+)$', ..., flags=re.MULTILINE)`
(`ai_chat_collection.py:253`): `.` does not cross newlines, so the
multiline substitution acts linewise. -/
def h3Line (l : List Char) : List Char :=
  if startsWithL ("### ".toList) l && !(l.drop 4).isEmpty then
    ("<h3 style=\"font-size: 16px; font-weight: bold; margin: 12px 0 8px 0; color: #6c5ce7;\">".toList)
      ++ l.drop 4 ++ ("</h3>".toList)
  else l

/-- One line of the `^## (.+)$` substitution (`ai_chat_collection.py:255`). -/
def h2Line (l : List Char) : List Char :=
  if startsWithL ("## ".toList) l && !(l.drop 3).isEmpty then
    ("<h2 style=\"font-size: 18px; font-weight: bold; margin: 16px 0 10px 0; color: #6c5ce7;\">".toList)
      ++ l.drop 3 ++ ("</h2>".toList)
  else l

/-- One line of the `^# (.+)$` substitution (`ai_chat_collection.py:257`). -/
def h1Line (l : List Char) : List Char :=
  if startsWithL ("# ".toList) l && !(l.drop 2).isEmpty then
    ("<h1 style=\"font-size: 20px; font-weight: bold; margin: 20px 0 12px 0; color: #6c5ce7;\">".toList)
      ++ l.drop 2 ++ ("</h1>".toList)
  else l

/-- Apply a linewise multiline substitution to the whole text. -/
def subLines (f : List Char → List Char) (cs : List Char) : List Char :=
  joinNl ((splitNl cs).map f)

/-- Find the closing `**` of a bold span: the lazily-matched `(.*?)`
cannot cross a newline.  Returns the span content and the remainder
after the closing delimiter. -/
def findBoldClose : List Char → Option (List Char × List Char)
  | [] => none
  | [_] => none
  | c1 :: c2 :: rest =>
    if c1 = '*' && c2 = '*' then some ([], rest)
    else if c1 = '\n' then none
    else (findBoldClose (c2 :: rest)).map (fun p => (c1 :: p.1, p.2))

/-- `re.sub(r'\*\*(.*?)\*\*', r'<b>\1</b>', text)`
(`ai_chat_collection.py:260`), as a left-to-right scan; the fuel only
certifies termination (`boldSub` always supplies enough). -/
def boldSubF : Nat → List Char → List Char
  | 0, cs => cs
  | _ + 1, [] => []
  | _ + 1, [c] => [c]
  | fuel + 1, c1 :: c2 :: rest =>
    if c1 = '*' && c2 = '*' then
      match findBoldClose rest with
      | some (ct, rm) =>
        ("<b>".toList) ++ ct ++ ("</b>".toList) ++ boldSubF fuel rm
      | none => c1 :: boldSubF fuel (c2 :: rest)
    else c1 :: boldSubF fuel (c2 :: rest)

/-- The bold substitution at adequate fuel. -/
def boldSub (cs : List Char) : List Char :=
  boldSubF (cs.length + 1) cs

/-- Find the closing single-character delimiter of an inline span
(italic `*` or code backtick); the lazy `(.*?)` cannot cross a newline. -/
def findSpanClose (d : Char) : List Char → Option (List Char × List Char)
  | [] => none
  | c :: rest =>
    if c = d then some ([], rest)
    else if c = '\n' then none
    else (findSpanClose d rest).map (fun p => (c :: p.1, p.2))

/-- A single-character-delimited lazy span substitution
(`re.sub(r'\*(.*?)\*', ...)` and the backtick code rule,
`ai_chat_collection.py:263` and `:266`), as a left-to-right scan. -/
def spanSubF (d : Char) (pre post : List Char) : Nat → List Char → List Char
  | 0, cs => cs
  | fuel + 1, cs =>
    match cs with
    | c :: rest =>
      if c = d then
        match findSpanClose d rest with
        | some (ct, rm) => pre ++ ct ++ post ++ spanSubF d pre post fuel rm
        | none => c :: spanSubF d pre post fuel rest
      else c :: spanSubF d pre post fuel rest
    | [] => []

/-- The italic substitution `\*(.*?)\*` → `<i>...</i>`. -/
def italicSub (cs : List Char) : List Char :=
  spanSubF '*' ("<i>".toList) ("</i>".toList) (cs.length + 1) cs

/-- The inline-code substitution, backtick-delimited. -/
def codeSub (cs : List Char) : List Char :=
  spanSubF (Char.ofNat 96)
    ("<code style=\"background-color: rgba(128,128,128,0.2); padding: 2px 4px; border-radius: 3px; font-family: monospace;\">".toList)
    ("</code>".toList) (cs.length + 1) cs

/-- `text.replace('\n', '<br>')` (`ai_chat_collection.py:269`). -/
def nlToBr : List Char → List Char
  | [] => []
  | c :: rest =>
    if c = '\n' then ("<br>".toList) ++ nlToBr rest
    else c :: nlToBr rest

/-- One line under `re.sub(r'^(\d+)\.\s+(.+)$', ..., flags=re.MULTILINE)`
(`ai_chat_collection.py:272`): greedy `\d+`, a literal dot, greedy `\s+`
backtracking to leave at least one character for `(.+)`. -/
def numberedLine (l : List Char) : List Char :=
  let ds := l.takeWhile isReDigit
  let rest1 := l.dropWhile isReDigit
  if ds.isEmpty then l
  else
    match rest1 with
    | '.' :: rest2 =>
      let w := rest2.takeWhile isPyWs
      let r := rest2.dropWhile isPyWs
      if w.isEmpty then l
      else if !r.isEmpty then
        ("<div style=\"margin: 4px 0;\"><b>".toList) ++ ds ++ (".</b> ".toList)
          ++ r ++ ("</div>".toList)
      else if 2 ≤ w.length then
        ("<div style=\"margin: 4px 0;\"><b>".toList) ++ ds ++ (".</b> ".toList)
          ++ [w.getLastD ' '] ++ ("</div>".toList)
      else l
    | _ => l

/-- One line under `re.sub(r'^[•\-\*]\s+(.+)$', ..., flags=re.MULTILINE)`
(`ai_chat_collection.py:275`). -/
def bulletLine (l : List Char) : List Char :=
  match l with
  | c :: rest =>
    if c = '•' || c = '-' || c = '*' then
      let w := rest.takeWhile isPyWs
      let r := rest.dropWhile isPyWs
      if w.isEmpty then l
      else if !r.isEmpty then
        ("<div style=\"margin: 4px 0;\">• ".toList) ++ r ++ ("</div>".toList)
      else if 2 ≤ w.length then
        ("<div style=\"margin: 4px 0;\">• ".toList) ++ [w.getLastD ' ']
          ++ ("</div>".toList)
      else l
    else l
  | [] => l

/-- `convert_markdown_to_html` (`ai_chat_collection.py:249-277`): the
seven substitutions applied in source order. -/
def convert_markdown_to_html (text : List Char) : List Char :=
  subLines bulletLine
    (subLines numberedLine
      (nlToBr
        (codeSub
          (italicSub
            (boldSub
              (subLines h1Line
                (subLines h2Line
                  (subLines h3Line text))))))))




/-! ## AIFloatingChatWindow: the per-card chat controller -/

/-- The role column of one `chat_history` row. -/
inductive Role where
  | user
  | assistant
deriving DecidableEq

/-- One persisted row of the per-card chat log
(`ChatDatabase.save_message(card_id, role, content)`); rows for the
current card, in insertion order. -/
structure ChatMessage where
  role : Role
  content : List Char
deriving DecidableEq

/-- The observable controller state of `AIFloatingChatWindow`: the
persisted history for the bound card, and whether the send controls are
enabled (`send_button.setEnabled` / `message_input.setEnabled` are
always toggled together). -/
structure ChatState where
  history : List ChatMessage
  sendEnabled : Bool
deriving DecidableEq

/-- `AIFloatingChatWindow.send_message`
(`ai_chat_collection.py:767-790`): strip the input; an empty message
returns unchanged; otherwise persist the user row, disable the send
controls, and start the streaming worker.  `input` is
`self.message_input.text()`. -/
def send_message (s : ChatState) (input : List Char) : ChatState :=
  let m := pyStrip input
  if m.isEmpty then s
  else { history := s.history ++ [⟨.user, m⟩], sendEnabled := false }

/-- `AIFloatingChatWindow.finish_streaming_response`
(`ai_chat_collection.py:841-858`): persist the assistant row and
re-enable the send controls. -/
def finish_streaming_response (s : ChatState) (finalText : List Char) : ChatState :=
  { history := s.history ++ [⟨.assistant, finalText⟩], sendEnabled := true }

/-- `AIFloatingChatWindow.handle_streaming_error`
(`ai_chat_collection.py:869-878`): show the error in the bubble (display
only), persist nothing, re-enable the send controls. -/
def handle_streaming_error (s : ChatState) (_errorMessage : List Char) : ChatState :=
  { history := s.history, sendEnabled := true }

/-- `AIFloatingChatWindow.update_streaming_bubble`
(`ai_chat_collection.py:832-839`): display only; no state change. -/
def update_streaming_bubble (s : ChatState) (_text : List Char) : ChatState :=
  s

/-- An event delivered to the chat window: a user send attempt, or one
of the three worker signals. -/
inductive UIEvent where
  | sendClicked (input : List Char)
  | chunkArrived (text : List Char)
  | streamFinished (text : List Char)
  | streamErrored (msg : List Char)

/-- The chat window's event dispatch.  A `sendClicked` reaches
`send_message` only while the send controls are enabled: Qt delivers no
`clicked`/`returnPressed` signal from a disabled widget, which is how
the source serialises turns (it disables both controls for the whole
streaming turn). -/
def chatStep (s : ChatState) : UIEvent → ChatState
  | .sendClicked input => if s.sendEnabled then send_message s input else s
  | .chunkArrived t => update_streaming_bubble s t
  | .streamFinished t => finish_streaming_response s t
  | .streamErrored m => handle_streaming_error s m

/-! ## FlashcardGenerationDialog.create_flashcards: the commit loop -/

/-- The per-record creation loop of
`FlashcardGenerationDialog.create_flashcards`
(`ai_chat_collection.py:3020-3054`): for each selected record, try to
build and add a note; a per-record exception is caught, logged and
skipped (`continue`), and `created_count` counts the successes.
`create i card` is the store boundary: `some note` if
`mw.col.add_note` succeeds for the `i`-th record, `none` if it raises. -/
def create_flashcards_loop {α : Type} (create : Nat → Flashcard → Option α) :
    Nat → List Flashcard → List α × Nat
  | _, [] => ([], 0)
  | i, card :: rest =>
    match create i card with
    | some note =>
      (note :: (create_flashcards_loop create (i + 1) rest).1,
        (create_flashcards_loop create (i + 1) rest).2 + 1)
    | none => create_flashcards_loop create (i + 1) rest

/-! ## Specification-side definitions used to state the claims -/

/-- Whether a stream event is a progress chunk. -/
def isChunkEv : StreamEvent → Bool
  | .chunk _ => true
  | _ => false

/-- Whether a stream event is terminal (`response_finished` or
`error_occurred`). -/
def isTerminalEv : StreamEvent → Bool
  | .chunk _ => false
  | _ => true

/-- The chunk payloads of an event list, in order. -/
def chunkTexts (evs : List StreamEvent) : List (List Char) :=
  evs.filterMap (fun e =>
    match e with
    | .chunk s => some s
    | _ => none)

/-- The content fragments (deltas) the streaming loop extracts from the
lines before it stops, in order; same traversal as `runLines`. -/
def streamContents (classify : List Char → LineResult) :
    List (List Char) → List (List Char)
  | [] => []
  | l :: rest =>
    let line := pyStrip l
    if startsWithL ("data: ".toList) line then
      let payload := line.drop 6
      if payload = ("[DONE]".toList) then []
      else if !payload.isEmpty then
        match classify payload with
        | .content s => s :: streamContents classify rest
        | .skip => streamContents classify rest
        | .noContent => streamContents classify rest
        | .fatal _ => []
      else streamContents classify rest
    else streamContents classify rest

/-- Whether the streaming loop hits a mid-stream exception (a `fatal`
classification) before terminating; same traversal as `runLines`. -/
def streamFatal (classify : List Char → LineResult) : List (List Char) → Bool
  | [] => false
  | l :: rest =>
    let line := pyStrip l
    if startsWithL ("data: ".toList) line then
      let payload := line.drop 6
      if payload = ("[DONE]".toList) then false
      else if !payload.isEmpty then
        match classify payload with
        | .content _ => streamFatal classify rest
        | .skip => streamFatal classify rest
        | .noContent => streamFatal classify rest
        | .fatal _ => true
      else streamFatal classify rest
    else streamFatal classify rest

/-- Modelled from the spec: the cumulative accumulated texts — the
running concatenations of a list of deltas, starting from `acc`
(`onChunk` "each time with the cumulative text so far"). -/
def cumulativeTexts (acc : List Char) : List (List Char) → List (List Char)
  | [] => []
  | s :: rest => (acc ++ s) :: cumulativeTexts (acc ++ s) rest

/-- Modelled from the spec: a full cloze span starting here —
`\x7b\x7bc`, one or more digits, `::`, and a closing `\x7d\x7d`
somewhere after. -/
def clozeSpanAt (l : List Char) : Bool :=
  if startsWithL ("\x7b\x7bc".toList) l then
    let afterTag := l.drop 3
    let ds := afterTag.takeWhile Char.isDigit
    let rest := afterTag.dropWhile Char.isDigit
    !ds.isEmpty && startsWithL ("::".toList) rest &&
      containsL ("\x7d\x7d".toList) (rest.drop 2)
  else false

/-- Modelled from the spec: the text contains one or more `\x7bcN::...\x7d`
spans (`\x7b` doubled), i.e. a full cloze marker with a numeric index,
not merely the substring `\x7b\x7bc`. -/
def hasClozeSpanSpec : List Char → Bool
  | [] => false
  | c :: cs => clozeSpanAt (c :: cs) || hasClozeSpanSpec cs

/-- A buffer of the basic-grammar scanner is either empty or survives a
final `strip` (the invariant behind "records missing either half are
dropped"). -/
def goodBuf (b : List Char) : Prop :=
  b = [] ∨ pyStrip b ≠ []

/-- The `^\d+\.\s` numbered-list marker (digits, a dot, whitespace). -/
def numMarkerB (l : List Char) : Bool :=
  !(l.takeWhile isReDigit).isEmpty &&
  (match l.dropWhile isReDigit with
   | '.' :: r =>
     match r with
     | c :: _ => isPyWs c
     | [] => false
   | _ => false)

/-- The `^[•\-\*]\s` bullet marker. -/
def bulletMarkerB (l : List Char) : Bool :=
  match l with
  | c :: d :: _ => (c = '•' || c = '-' || c = '*') && isPyWs d
  | _ => false

/-- One line free of the markup tokens `convert_markdown_to_html`
recognises: no header trigger, at most one `*` and at most one backtick
(so neither a bold, an italic nor a code pair can fire on the line), and
no numbered-list or bullet marker. -/
def lineOkB (l : List Char) : Bool :=
  !(startsWithL ("### ".toList) l && !(l.drop 4).isEmpty) &&
  !(startsWithL ("## ".toList) l && !(l.drop 3).isEmpty) &&
  !(startsWithL ("# ".toList) l && !(l.drop 2).isEmpty) &&
  (l.countP (fun c => c == '*') ≤ 1 : Bool) &&
  (l.countP (fun c => c == Char.ofNat 96) ≤ 1 : Bool) &&
  !numMarkerB l && !bulletMarkerB l

/-- Modelled from the spec: the input contains no markup tokens (no
header, bold, italic, code, list, or bullet markers), line by line. -/
def noMarkupB (t : List Char) : Bool :=
  (splitNl t).all lineOkB

/-! ## Helper lemmas: `pyStrip` and substring machinery -/

theorem notEmpty_iff {α : Type} {l : List α} : (!l.isEmpty) = true ↔ l ≠ [] := by
  cases l <;> simp

theorem dropWhile_head_false {p : Char → Bool} :
    ∀ {l : List Char} {c : Char} {t : List Char},
      l.dropWhile p = c :: t → p c = false := by
  intro l
  induction l with
  | nil => intro c t h; simp [List.dropWhile] at h
  | cons a l ih =>
    intro c t h
    by_cases hpa : p a = true
    · rw [List.dropWhile_cons_of_pos hpa] at h
      exact ih h
    · rw [List.dropWhile_cons_of_neg hpa] at h
      injection h with h1 _
      subst h1
      exact Bool.not_eq_true _ |>.mp hpa

theorem forall_mem_dropWhile_iff {p : Char → Bool} {l : List Char} :
    (∀ c ∈ l.dropWhile p, p c = true) ↔ ∀ c ∈ l, p c = true := by
  constructor
  · intro h c hc
    have hc' : c ∈ l.takeWhile p ++ l.dropWhile p := by
      rw [List.takeWhile_append_dropWhile p l]; exact hc
    rcases List.mem_append.mp hc' with h1 | h2
    · exact List.mem_takeWhile_imp h1
    · exact h c h2
  · intro h c hc
    exact h c ((List.dropWhile_sublist _).mem hc)

theorem pyStrip_eq_nil_iff {l : List Char} :
    pyStrip l = [] ↔ ∀ c ∈ l, isPyWs c = true := by
  unfold pyStrip
  rw [List.reverse_eq_nil_iff, List.dropWhile_eq_nil_iff]
  constructor
  · intro h c hc
    refine forall_mem_dropWhile_iff.mp (fun d hd => ?_) c hc
    exact h d (List.mem_reverse.mpr hd)
  · intro h d hd
    exact forall_mem_dropWhile_iff.mpr h d (List.mem_reverse.mp hd)

theorem pyStrip_ne_nil {l : List Char} (c : Char) (hc : c ∈ l)
    (hw : isPyWs c = false) : pyStrip l ≠ [] := by
  intro h
  have := pyStrip_eq_nil_iff.mp h c hc
  simp [this] at hw

theorem pyStrip_has_nonWs {l : List Char} (h : pyStrip l ≠ []) :
    ∃ c ∈ pyStrip l, isPyWs c = false := by
  rcases hy : (l.dropWhile isPyWs).reverse.dropWhile isPyWs with _ | ⟨c, t⟩
  · exfalso
    apply h
    unfold pyStrip
    rw [hy, List.reverse_nil]
  · refine ⟨c, ?_, dropWhile_head_false hy⟩
    show c ∈ pyStrip l
    unfold pyStrip
    rw [hy]
    simp

theorem mem_of_mem_pyStrip {l : List Char} {c : Char} (h : c ∈ pyStrip l) :
    c ∈ l := by
  unfold pyStrip at h
  have h1 := List.mem_reverse.mp h
  have h2 := (List.dropWhile_sublist _).mem h1
  have h3 := List.mem_reverse.mp h2
  exact (List.dropWhile_sublist _).mem h3

theorem goodBuf_nil : goodBuf [] := Or.inl rfl

theorem goodBuf_strip (x : List Char) : goodBuf (pyStrip x) := by
  by_cases h : pyStrip x = []
  · exact Or.inl h
  · right
    obtain ⟨c, hc, hw⟩ := pyStrip_has_nonWs h
    exact pyStrip_ne_nil c hc hw

theorem goodBuf_append (b : List Char) {l : List Char} (hl : pyStrip l ≠ []) :
    goodBuf (b ++ '\n' :: pyStrip l) := by
  right
  obtain ⟨c, hc, hw⟩ := pyStrip_has_nonWs hl
  refine pyStrip_ne_nil c ?_ hw
  simp [hc]

theorem startsWithL_iff {pat l : List Char} :
    startsWithL pat l = true ↔ pat <+: l := by
  induction pat generalizing l with
  | nil => simp [startsWithL]
  | cons p ps ih =>
    cases l with
    | nil =>
      simp [startsWithL]
    | cons c cs =>
      rw [startsWithL, Bool.and_eq_true, decide_eq_true_iff, ih,
        List.cons_prefix_cons]

theorem containsL_iff {pat l : List Char} :
    containsL pat l = true ↔ pat <:+: l := by
  induction l with
  | nil =>
    rw [containsL, startsWithL_iff]
    constructor
    · exact fun h => h.isInfix
    · intro h
      rw [List.infix_nil] at h
      subst h
      exact List.nil_prefix
  | cons c cs ih =>
    rw [containsL, Bool.or_eq_true, startsWithL_iff, ih, List.infix_cons_iff]

theorem infix_dropWhile_of_head {p : Char → Bool} {c0 : Char} {pat l : List Char}
    (hc : p c0 = false) (h : (c0 :: pat) <:+: l) :
    (c0 :: pat) <:+: l.dropWhile p := by
  obtain ⟨s, t, hst⟩ := h
  induction s generalizing l with
  | nil =>
    rw [← hst]
    simp only [List.nil_append, List.cons_append]
    rw [List.dropWhile_cons_of_neg (by rw [hc]; exact Bool.false_ne_true)]
    exact ⟨[], t, by simp⟩
  | cons a s ih =>
    rw [← hst]
    simp only [List.cons_append]
    by_cases hpa : p a = true
    · rw [List.dropWhile_cons_of_pos hpa]
      exact ih rfl
    · rw [List.dropWhile_cons_of_neg hpa]
      exact ⟨a :: s, t, by simp⟩

/-- The cloze tag `\x7b\x7bc` survives a Python `strip`, since its
characters are not whitespace. -/
theorem infix_pyStrip_clozeTag {l : List Char}
    (h : ("\x7b\x7bc".toList) <:+: l) :
    ("\x7b\x7bc".toList) <:+: pyStrip l := by
  have e1 : ("\x7b\x7bc".toList) = Char.ofNat 123 :: [Char.ofNat 123, 'c'] := by
    decide
  have e2 : ("\x7b\x7bc".toList).reverse = 'c' :: [Char.ofNat 123, Char.ofNat 123] := by
    decide
  have h1 : ("\x7b\x7bc".toList) <:+: l.dropWhile isPyWs := by
    rw [e1] at h ⊢
    exact infix_dropWhile_of_head (by decide) h
  have h2 := List.reverse_infix.mpr h1
  rw [e2] at h2
  have h3 := infix_dropWhile_of_head (p := isPyWs) (by decide) h2
  have h4 := List.reverse_infix.mpr h3
  rw [← e2, List.reverse_reverse] at h4
  exact h4

/-! ## Parser-loop invariants -/

/-- Every record emitted by the basic-grammar scanning loop has a
non-empty front and a non-empty back, provided the running buffers
satisfy the strip-survival invariant. -/
theorem parseBasicLoop_complete :
    ∀ (lines : List (List Char)) (f b : List Char) (inF inB : Bool),
      goodBuf f → goodBuf b →
      ∀ fr bk, Flashcard.basicCard fr bk ∈ parseBasicLoop lines f b inF inB →
        fr ≠ [] ∧ bk ≠ [] := by
  intro lines
  induction lines with
  | nil =>
    intro f b inF inB hf hb fr bk hmem
    simp only [parseBasicLoop] at hmem
    split_ifs at hmem with h
    · simp only [List.mem_singleton, Flashcard.basicCard.injEq] at hmem
      obtain ⟨e1, e2⟩ := hmem
      rw [Bool.and_eq_true, notEmpty_iff, notEmpty_iff] at h
      subst e1; subst e2
      constructor
      · rcases hf with rfl | hf
        · exact absurd rfl h.1
        · exact hf
      · rcases hb with rfl | hb
        · exact absurd rfl h.2
        · exact hb
    · simp at hmem
  | cons l rest ih =>
    intro f b inF inB hf hb fr bk hmem
    simp only [parseBasicLoop] at hmem
    split_ifs at hmem with h1 h2 h3 h4 h5 h6
    · rcases List.mem_append.mp hmem with hm | hm
      · simp only [List.mem_singleton, Flashcard.basicCard.injEq] at hm
        obtain ⟨e1, e2⟩ := hm
        simp only [Bool.and_eq_true, notEmpty_iff] at h2
        subst e1; subst e2
        constructor
        · rcases hf with rfl | hf
          · exact absurd rfl h2.1
          · exact hf
        · rcases hb with rfl | hb
          · exact absurd rfl h2.2
          · exact hb
      · exact ih _ _ _ _ (goodBuf_strip _) goodBuf_nil fr bk hm
    · rw [List.nil_append] at hmem
      exact ih _ _ _ _ (goodBuf_strip _) goodBuf_nil fr bk hmem
    · exact ih _ _ _ _ hf (goodBuf_strip _) fr bk hmem
    · simp only [Bool.and_eq_true, notEmpty_iff] at h4
      exact ih _ _ _ _ (goodBuf_append f h4.1) hb fr bk hmem
    · simp only [Bool.and_eq_true, notEmpty_iff] at h5
      exact ih _ _ _ _ hf (goodBuf_append b h5.1) fr bk hmem
    · rcases List.mem_cons.mp hmem with hm | hm
      · simp only [Bool.and_eq_true, notEmpty_iff] at h6
        injection hm with e1 e2
        subst e1; subst e2
        constructor
        · rcases hf with rfl | hf
          · exact absurd rfl h6.1.2
          · exact hf
        · rcases hb with rfl | hb
          · exact absurd rfl h6.2
          · exact hb
      · exact ih _ _ _ _ goodBuf_nil goodBuf_nil fr bk hm
    · exact ih _ _ _ _ hf hb fr bk hmem

/-- Every record emitted by the cloze scanning loop contains the cloze
tag, provided the running buffer does. -/
theorem parseClozeLoop_infix :
    ∀ (lines : List (List Char)) (cur : List Char),
      (cur = [] ∨ ("\x7b\x7bc".toList) <:+: cur) →
      ∀ content, Flashcard.clozeCard content ∈ parseClozeLoop lines cur →
        ("\x7b\x7bc".toList) <:+: content := by
  intro lines
  induction lines with
  | nil =>
    intro cur hcur content hmem
    simp only [parseClozeLoop] at hmem
    split_ifs at hmem with h
    · simp only [List.mem_singleton, Flashcard.clozeCard.injEq] at hmem
      subst hmem
      rw [notEmpty_iff] at h
      rcases hcur with rfl | hcur
      · exact absurd rfl h
      · exact infix_pyStrip_clozeTag hcur
    · simp at hmem
  | cons l rest ih =>
    intro cur hcur content hmem
    simp only [parseClozeLoop] at hmem
    split_ifs at hmem with h1 h2 h3 h4
    · rcases List.mem_append.mp hmem with hm | hm
      · simp only [List.mem_singleton, Flashcard.clozeCard.injEq] at hm
        subst hm
        simp only [notEmpty_iff] at h2
        rcases hcur with rfl | hcur
        · exact absurd rfl h2
        · exact infix_pyStrip_clozeTag hcur
      · simp only [Bool.and_eq_true] at h1
        exact ih _ (Or.inr (containsL_iff.mp h1.2)) content hm
    · rw [List.nil_append] at hmem
      simp only [Bool.and_eq_true] at h1
      exact ih _ (Or.inr (containsL_iff.mp h1.2)) content hmem
    · rcases hcur with rfl | hcur
      · simp at h3
      · exact ih _ (Or.inr (hcur.trans ⟨[], '\n' :: pyStrip l, by simp⟩)) content hmem
    · rcases List.mem_cons.mp hmem with hm | hm
      · simp only [Bool.and_eq_true, notEmpty_iff] at h4
        injection hm with e1
        subst e1
        rcases hcur with rfl | hcur
        · exact absurd rfl h4.2
        · exact infix_pyStrip_clozeTag hcur
      · exact ih _ (Or.inl rfl) content hm
    · exact ih _ hcur content hmem

/-! ## Streaming-loop lemmas -/

theorem chunkTexts_eq_nil_iff {evs : List StreamEvent} :
    chunkTexts evs = [] ↔ ∀ s, StreamEvent.chunk s ∉ evs := by
  induction evs with
  | nil => simp [chunkTexts]
  | cons e t ih =>
    cases e with
    | chunk s =>
      simp only [chunkTexts, List.filterMap_cons] at *
      constructor
      · intro h; simp at h
      · intro h
        exact absurd (List.mem_cons_self _ _) (h s)
    | finished s =>
      simp only [chunkTexts, List.filterMap_cons] at *
      rw [ih]
      constructor
      · intro h s' hs'
        rcases List.mem_cons.mp hs' with he | he
        · exact absurd he (by simp)
        · exact h s' he
      · intro h s' hs'
        exact h s' (List.mem_cons_of_mem _ hs')
    | errored s =>
      simp only [chunkTexts, List.filterMap_cons] at *
      rw [ih]
      constructor
      · intro h s' hs'
        rcases List.mem_cons.mp hs' with he | he
        · exact absurd he (by simp)
        · exact h s' he
      · intro h s' hs'
        exact h s' (List.mem_cons_of_mem _ hs')

theorem cumulativeTexts_eq_nil_iff {acc : List Char} {xs : List (List Char)} :
    cumulativeTexts acc xs = [] ↔ xs = [] := by
  cases xs <;> simp [cumulativeTexts]

theorem chunkTexts_finishEvents (acc : List Char) :
    chunkTexts (finishEvents acc) = [] := by
  by_cases ha : (!acc.isEmpty) = true <;>
    simp [finishEvents, ha, chunkTexts]

theorem finishEvents_shape (acc : List Char) :
    ∃ last, finishEvents acc = [last] ∧ isTerminalEv last = true := by
  by_cases ha : (!acc.isEmpty) = true
  · rw [finishEvents, if_pos ha]
    exact ⟨.finished acc, rfl, rfl⟩
  · rw [finishEvents, if_neg ha]
    exact ⟨.errored _, rfl, rfl⟩

theorem finished_mem_finishEvents {acc t : List Char}
    (h : StreamEvent.finished t ∈ finishEvents acc) : acc ≠ [] := by
  by_cases ha : (!acc.isEmpty) = true
  · exact notEmpty_iff.mp ha
  · rw [finishEvents, if_neg ha] at h
    simp at h

theorem finishEvents_nil :
    finishEvents [] = [.errored ("No response received".toList)] := rfl

/-- The chunk payloads emitted by the streaming loop are exactly the
running concatenations of the extracted content fragments. -/
theorem chunkTexts_runLines (classify : List Char → LineResult) :
    ∀ (lines : List (List Char)) (acc : List Char),
      chunkTexts (runLines classify acc lines) =
        cumulativeTexts acc (streamContents classify lines) := by
  intro lines
  induction lines with
  | nil =>
    intro acc
    simp [runLines, streamContents, cumulativeTexts, chunkTexts_finishEvents]
  | cons l rest ih =>
    intro acc
    simp only [runLines, streamContents]
    split_ifs with h1 h2 h3
    · simp [chunkTexts_finishEvents, cumulativeTexts]
    · rcases hc : classify (List.drop 6 (pyStrip l)) with _ | _ | s | m
      · exact ih acc
      · exact ih acc
      · show chunkTexts (.chunk (acc ++ s) :: runLines classify (acc ++ s) rest) =
          cumulativeTexts acc (s :: streamContents classify rest)
        simp only [chunkTexts, List.filterMap_cons, cumulativeTexts]
        exact congrArg _ (ih (acc ++ s))
      · show chunkTexts [.errored m] = cumulativeTexts acc []
        simp [chunkTexts, cumulativeTexts]
    · exact ih acc
    · exact ih acc

/-- Every run of the streaming loop is a (possibly empty) sequence of
chunk events followed by exactly one terminal event. -/
theorem runLines_shape (classify : List Char → LineResult) :
    ∀ (lines : List (List Char)) (acc : List Char),
      ∃ pre last, runLines classify acc lines = pre ++ [last] ∧
        (∀ e ∈ pre, isChunkEv e = true) ∧ isTerminalEv last = true := by
  intro lines
  induction lines with
  | nil =>
    intro acc
    obtain ⟨last, heq, hl⟩ := finishEvents_shape acc
    exact ⟨[], last, heq, by simp, hl⟩
  | cons l rest ih =>
    intro acc
    simp only [runLines]
    split_ifs with h1 h2 h3
    · obtain ⟨last, heq, hl⟩ := finishEvents_shape acc
      exact ⟨[], last, heq, by simp, hl⟩
    · rcases hc : classify (List.drop 6 (pyStrip l)) with _ | _ | s | m
      · exact ih acc
      · exact ih acc
      · obtain ⟨pre, last, heq, hpre, hl⟩ := ih (acc ++ s)
        refine ⟨.chunk (acc ++ s) :: pre, last, ?_, ?_, hl⟩
        · show StreamEvent.chunk (acc ++ s) :: runLines classify (acc ++ s) rest =
            (StreamEvent.chunk (acc ++ s) :: pre) ++ [last]
          rw [List.cons_append, heq]
        · intro e he
          rcases List.mem_cons.mp he with rfl | he
          · rfl
          · exact hpre e he
      · exact ⟨[], .errored m, rfl, by simp, rfl⟩
    · exact ih acc
    · exact ih acc

/-- A finished event requires a non-empty entry accumulator or at least
one extracted content fragment. -/
theorem runLines_finished_content (classify : List Char → LineResult) :
    ∀ (lines : List (List Char)) (acc : List Char) (t : List Char),
      StreamEvent.finished t ∈ runLines classify acc lines →
        acc ≠ [] ∨ streamContents classify lines ≠ [] := by
  intro lines
  induction lines with
  | nil =>
    intro acc t h
    exact Or.inl (finished_mem_finishEvents h)
  | cons l rest ih =>
    intro acc t h
    simp only [runLines] at h
    split_ifs at h with h1 h2 h3
    · exact Or.inl (finished_mem_finishEvents h)
    · rcases hc : classify (List.drop 6 (pyStrip l)) with _ | _ | s | m
      · rw [hc] at h
        simp only [streamContents, h1, h2, h3, hc]
        exact ih acc t h
      · rw [hc] at h
        simp only [streamContents, h1, h2, h3, hc]
        exact ih acc t h
      · simp only [streamContents, h1, h2, h3, hc]
        exact Or.inr (List.cons_ne_nil _ _)
      · rw [hc] at h
        have h' : StreamEvent.finished t ∈ [StreamEvent.errored m] := h
        simp at h'
    · simp only [streamContents, h1, h2, h3]
      exact ih acc t h
    · simp only [streamContents, h1]
      exact ih acc t h

/-- Normal termination with no extracted content and an empty entry
accumulator yields exactly the "No response received" error. -/
theorem runLines_no_content_error (classify : List Char → LineResult) :
    ∀ (lines : List (List Char)),
      streamFatal classify lines = false →
      streamContents classify lines = [] →
      runLines classify [] lines = [.errored ("No response received".toList)] := by
  intro lines
  induction lines with
  | nil =>
    intro _ _
    exact finishEvents_nil
  | cons l rest ih =>
    intro hfat hcon
    simp only [runLines]
    split_ifs with h1 h2 h3
    · exact finishEvents_nil
    · rcases hc : classify (List.drop 6 (pyStrip l)) with _ | _ | s | m
      · simp only [streamFatal, streamContents, h1, h2, h3, hc] at hfat hcon
        exact ih hfat hcon
      · simp only [streamFatal, streamContents, h1, h2, h3, hc] at hfat hcon
        exact ih hfat hcon
      · simp only [streamContents, h1, h2, h3, hc] at hcon
        exact absurd hcon (List.cons_ne_nil _ _)
      · simp only [streamFatal, h1, h2, h3, hc] at hfat
        have h' : (true : Bool) = false := hfat
        exact absurd h' (by decide)
    · simp only [streamFatal, streamContents, h1, h2, h3] at hfat hcon
      exact ih hfat hcon
    · simp only [streamFatal, streamContents, h1] at hfat hcon
      exact ih hfat hcon

/-! ## Line-structure lemmas for the markdown converter -/

theorem splitNl_ne_nil : ∀ cs : List Char, splitNl cs ≠ [] := by
  intro cs
  induction cs with
  | nil => simp [splitNl]
  | cons c cs ih =>
    simp only [splitNl]
    split_ifs with h
    · simp
    · rcases hs : splitNl cs with _ | ⟨l, ls⟩
      · simp
      · simp

theorem splitNl_cons_nl (cs : List Char) :
    splitNl ('\n' :: cs) = [] :: splitNl cs := by
  simp [splitNl]

theorem splitNl_cons_ne (c : Char) (cs : List Char) (h : ¬ c = '\n') :
    ∃ l0 ls, splitNl cs = l0 :: ls ∧ splitNl (c :: cs) = (c :: l0) :: ls := by
  rcases hs : splitNl cs with _ | ⟨l0, ls⟩
  · exact absurd hs (splitNl_ne_nil cs)
  · exact ⟨l0, ls, rfl, by simp [splitNl, h, hs]⟩

theorem joinNl_cons_head (ls : List (List Char)) (l : List Char) (c : Char) :
    joinNl ((c :: l) :: ls) = c :: joinNl (l :: ls) := by
  cases ls <;> simp [joinNl]

theorem joinNl_splitNl : ∀ cs : List Char, joinNl (splitNl cs) = cs := by
  intro cs
  induction cs with
  | nil => rfl
  | cons c cs ih =>
    by_cases h : c = '\n'
    · subst h
      rw [splitNl_cons_nl]
      rcases hs : splitNl cs with _ | ⟨l, ls⟩
      · exact absurd hs (splitNl_ne_nil cs)
      · rw [hs] at ih
        rw [show joinNl ([] :: l :: ls) = '\n' :: joinNl (l :: ls) from by
          simp [joinNl]]
        rw [ih]
    · obtain ⟨l0, ls, hs, hs2⟩ := splitNl_cons_ne c cs h
      rw [hs2, joinNl_cons_head]
      rw [hs] at ih
      rw [ih]

theorem subLines_id {f : List Char → List Char} {t : List Char}
    (hf : ∀ l ∈ splitNl t, f l = l) : subLines f t = t := by
  unfold subLines
  have hmap : (splitNl t).map f = splitNl t := by
    have := List.map_congr_left (g := id) (fun a ha => hf a ha)
    simpa using this
  rw [hmap, joinNl_splitNl]

theorem splitNl_single {cs : List Char} (h : '\n' ∉ cs) : splitNl cs = [cs] := by
  induction cs with
  | nil => rfl
  | cons c rest ih =>
    have hc : ¬ c = '\n' := fun he => h (he ▸ List.mem_cons_self c rest)
    obtain ⟨l0, ls, hs, hs2⟩ := splitNl_cons_ne c rest hc
    have hrest : '\n' ∉ rest := fun hm => h (List.mem_cons_of_mem _ hm)
    rw [ih hrest] at hs
    injection hs with e1 e2
    rw [hs2, e1, e2]

/-- The first line of `splitNl` is the longest newline-free prefix. -/
theorem splitNl_head : ∀ cs : List Char,
    ∃ ls, splitNl cs = (cs.takeWhile (fun c => !(c == '\n'))) :: ls := by
  intro cs
  induction cs with
  | nil => exact ⟨[], rfl⟩
  | cons c rest ih =>
    by_cases hc : c = '\n'
    · subst hc
      refine ⟨splitNl rest, ?_⟩
      rw [splitNl_cons_nl]
      simp [List.takeWhile_cons]
    · obtain ⟨l0, ls, hs, hs2⟩ := splitNl_cons_ne c rest hc
      obtain ⟨ls', hs'⟩ := ih
      rw [hs'] at hs
      injection hs with e1 e2
      refine ⟨ls, ?_⟩
      rw [hs2]
      have ht : List.takeWhile (fun c => !(c == '\n')) (c :: rest) =
          c :: List.takeWhile (fun c => !(c == '\n')) rest := by
        rw [List.takeWhile_cons_of_pos]
        simp [hc]
      rw [ht, e1]

/-- Per-line delimiter counts transfer from `c :: cs` to `cs`. -/
theorem countOk_tail {c : Char} {cs : List Char} (p : Char → Bool)
    (h : ∀ l ∈ splitNl (c :: cs), l.countP p ≤ 1) :
    ∀ l ∈ splitNl cs, l.countP p ≤ 1 := by
  by_cases hc : c = '\n'
  · subst hc
    intro l hl
    exact h l (by rw [splitNl_cons_nl]; exact List.mem_cons_of_mem _ hl)
  · obtain ⟨l0, ls, hs, hs2⟩ := splitNl_cons_ne c cs hc
    intro l hl
    rw [hs] at hl
    rcases List.mem_cons.mp hl with rfl | hl2
    · have hh := h (c :: l) (by rw [hs2]; exact List.mem_cons_self _ _)
      rw [List.countP_cons] at hh
      exact le_trans (Nat.le_add_right _ _) hh
    · exact h l (by rw [hs2]; exact List.mem_cons_of_mem _ hl2)

theorem takeWhile_append_of_all {p : Char → Bool} :
    ∀ (a b : List Char), a.dropWhile p = [] →
      (a ++ b).takeWhile p = a ++ b.takeWhile p ∧
        (a ++ b).dropWhile p = b.dropWhile p := by
  intro a
  induction a with
  | nil => intro b _; simp
  | cons x a ih =>
    intro b hd
    by_cases hx : p x = true
    · rw [List.dropWhile_cons_of_pos hx] at hd
      obtain ⟨h1, h2⟩ := ih b hd
      constructor
      · rw [List.cons_append, List.takeWhile_cons_of_pos hx, h1, List.cons_append]
      · rw [List.cons_append, List.dropWhile_cons_of_pos hx, h2]
    · rw [List.dropWhile_cons_of_neg hx] at hd
      exact absurd hd (by simp)

theorem takeWhile_append_of_stop {p : Char → Bool} :
    ∀ (a b c : List Char) (x : Char), a.dropWhile p = x :: c →
      (a ++ b).takeWhile p = a.takeWhile p ∧
        (a ++ b).dropWhile p = (x :: c) ++ b := by
  intro a
  induction a with
  | nil =>
    intro b c x hd
    simp at hd
  | cons y a ih =>
    intro b c x hd
    by_cases hy : p y = true
    · rw [List.dropWhile_cons_of_pos hy] at hd
      obtain ⟨h1, h2⟩ := ih b c x hd
      constructor
      · rw [List.cons_append, List.takeWhile_cons_of_pos hy, h1,
          List.takeWhile_cons_of_pos hy]
      · rw [List.cons_append, List.dropWhile_cons_of_pos hy, h2]
    · rw [List.dropWhile_cons_of_neg hy] at hd
      injection hd with e1 e2
      subst e1; subst e2
      constructor
      · rw [List.cons_append, List.takeWhile_cons_of_neg hy,
          List.takeWhile_cons_of_neg hy]
      · rw [List.cons_append, List.dropWhile_cons_of_neg hy]

/-! ## Identity of the converter stages on markup-free text -/

theorem lineOk_parts {l : List Char} (h : lineOkB l = true) :
    (startsWithL ("### ".toList) l && !(l.drop 4).isEmpty) = false ∧
      (startsWithL ("## ".toList) l && !(l.drop 3).isEmpty) = false ∧
      (startsWithL ("# ".toList) l && !(l.drop 2).isEmpty) = false ∧
      l.countP (fun c => c == '*') ≤ 1 ∧
      l.countP (fun c => c == Char.ofNat 96) ≤ 1 ∧
      numMarkerB l = false ∧
      bulletMarkerB l = false := by
  simp only [lineOkB, Bool.and_eq_true, Bool.not_eq_true', decide_eq_true_eq] at h
  obtain ⟨⟨⟨⟨⟨⟨hA, hB⟩, hC⟩, hD⟩, hE⟩, hN⟩, hU⟩ := h
  exact ⟨hA, hB, hC, hD, hE, hN, hU⟩

theorem h3Line_id {l : List Char}
    (h : (startsWithL ("### ".toList) l && !(l.drop 4).isEmpty) = false) :
    h3Line l = l := by
  unfold h3Line
  rw [if_neg (by rw [h]; exact Bool.false_ne_true)]

theorem h2Line_id {l : List Char}
    (h : (startsWithL ("## ".toList) l && !(l.drop 3).isEmpty) = false) :
    h2Line l = l := by
  unfold h2Line
  rw [if_neg (by rw [h]; exact Bool.false_ne_true)]

theorem h1Line_id {l : List Char}
    (h : (startsWithL ("# ".toList) l && !(l.drop 2).isEmpty) = false) :
    h1Line l = l := by
  unfold h1Line
  rw [if_neg (by rw [h]; exact Bool.false_ne_true)]

theorem boldSubF_id : ∀ (fuel : Nat) (cs : List Char),
    (∀ l ∈ splitNl cs, l.countP (fun x => x == '*') ≤ 1) →
    boldSubF fuel cs = cs := by
  intro fuel
  induction fuel with
  | zero => intro cs _; rfl
  | succ fuel ih =>
    intro cs h
    rcases cs with _ | ⟨c1, cs1⟩
    · rfl
    · rcases cs1 with _ | ⟨c2, rest⟩
      · rfl
      · simp only [boldSubF]
        by_cases hstar : (c1 = '*' && c2 = '*') = true
        · exfalso
          rw [Bool.and_eq_true, decide_eq_true_eq, decide_eq_true_eq] at hstar
          obtain ⟨rfl, rfl⟩ := hstar
          obtain ⟨l0, ls, hsa, hsa2⟩ := splitNl_cons_ne '*' ('*' :: rest) (by decide)
          obtain ⟨l0', ls', hsb, hsb2⟩ := splitNl_cons_ne '*' rest (by decide)
          rw [hsb2] at hsa
          injection hsa with e1 e2
          have hmem : ('*' :: '*' :: l0') ∈ splitNl ('*' :: '*' :: rest) := by
            rw [hsa2, e1]
            exact List.mem_cons_self _ _
          have hcnt := h _ hmem
          rw [List.countP_cons, List.countP_cons] at hcnt
          have hcnt' : l0'.countP (fun x => x == '*') + 1 + 1 ≤ 1 := by
            simpa using hcnt
          omega
        · rw [if_neg hstar]
          rw [ih (c2 :: rest) (countOk_tail _ h)]

theorem takeWhile_nl_cons {c : Char} (rest : List Char) (h : ¬ c = '\n') :
    List.takeWhile (fun x => !(x == '\n')) (c :: rest) =
      c :: List.takeWhile (fun x => !(x == '\n')) rest := by
  rw [List.takeWhile_cons]
  simp [h]

theorem findSpanClose_none {d : Char} (hd : ¬ d = '\n') :
    ∀ rest : List Char,
      (rest.takeWhile (fun c => !(c == '\n'))).countP (fun x => x == d) = 0 →
      findSpanClose d rest = none := by
  intro rest
  induction rest with
  | nil => intro _; rfl
  | cons c rest ih =>
    intro h
    simp only [findSpanClose]
    by_cases hc : c = d
    · exfalso
      have hcnl : ¬ c = '\n' := by rw [hc]; exact hd
      rw [takeWhile_nl_cons rest hcnl, List.countP_cons] at h
      simp [hc] at h
    · rw [if_neg hc]
      by_cases hn : c = '\n'
      · rw [if_pos hn]
      · rw [if_neg hn]
        rw [takeWhile_nl_cons rest hn, List.countP_cons] at h
        rw [ih (Nat.eq_zero_of_add_eq_zero_right h)]
        rfl

theorem spanSubF_id {d : Char} (pre post : List Char) (hd : ¬ d = '\n') :
    ∀ (fuel : Nat) (cs : List Char),
      (∀ l ∈ splitNl cs, l.countP (fun x => x == d) ≤ 1) →
      spanSubF d pre post fuel cs = cs := by
  intro fuel
  induction fuel with
  | zero => intro cs _; rfl
  | succ fuel ih =>
    intro cs h
    rcases cs with _ | ⟨c, rest⟩
    · rfl
    · simp only [spanSubF]
      by_cases hc : c = d
      · subst hc
        obtain ⟨ls, hhead⟩ := splitNl_head (c :: rest)
        rw [takeWhile_nl_cons rest hd] at hhead
        have hcnt := h _ (by rw [hhead]; exact List.mem_cons_self _ _)
        rw [List.countP_cons] at hcnt
        have hz :
            (rest.takeWhile (fun x => !(x == '\n'))).countP (fun x => x == c) = 0 := by
          simp only [beq_self_eq_true, if_true] at hcnt
          omega
        rw [if_pos rfl, findSpanClose_none hd rest hz]
        show c :: spanSubF c pre post fuel rest = c :: rest
        rw [ih rest (countOk_tail _ h)]
      · rw [if_neg hc]
        rw [ih rest (countOk_tail _ h)]

theorem nlToBr_no_nl : ∀ cs : List Char, '\n' ∉ nlToBr cs := by
  intro cs
  induction cs with
  | nil => simp [nlToBr]
  | cons c rest ih =>
    simp only [nlToBr]
    by_cases hc : c = '\n'
    · rw [if_pos hc]
      intro hm
      rcases List.mem_append.mp hm with h1 | h2
      · exact absurd h1 (by decide)
      · exact ih h2
    · rw [if_neg hc]
      intro hm
      rcases List.mem_cons.mp hm with h1 | h2
      · exact hc h1.symm
      · exact ih h2

/-- Joining lines with the `<br>` separator (how `nlToBr` relates to the
line decomposition). -/
def brJoin : List (List Char) → List Char
  | [] => []
  | [l] => l
  | l :: ls => l ++ ("<br>".toList) ++ brJoin ls

theorem brJoin_cons_head (ls : List (List Char)) (l : List Char) (c : Char) :
    brJoin ((c :: l) :: ls) = c :: brJoin (l :: ls) := by
  cases ls <;> simp [brJoin]

theorem nlToBr_eq_brJoin : ∀ cs : List Char, nlToBr cs = brJoin (splitNl cs) := by
  intro cs
  induction cs with
  | nil => rfl
  | cons c rest ih =>
    simp only [nlToBr]
    by_cases hc : c = '\n'
    · subst hc
      rw [if_pos rfl, splitNl_cons_nl]
      rcases hs : splitNl rest with _ | ⟨l, ls⟩
      · exact absurd hs (splitNl_ne_nil rest)
      · rw [hs] at ih
        rw [show brJoin ([] :: l :: ls) = ("<br>".toList) ++ brJoin (l :: ls) from by
          simp [brJoin]]
        rw [ih]
    · obtain ⟨l0, ls, hs, hs2⟩ := splitNl_cons_ne c rest hc
      rw [if_neg hc, hs2, brJoin_cons_head]
      rw [hs] at ih
      rw [ih]

/-- The numbered-list rule leaves a line alone when its first original
line carries no `\d+\.\s` marker and the remainder, if any, begins with
the non-digit, non-whitespace `<` of an inserted `<br>`. -/
theorem numberedLine_id_of_first (l0 rest : List Char)
    (hm : numMarkerB l0 = false)
    (hr : rest = [] ∨ ∃ r', rest = '<' :: r') :
    numberedLine (l0 ++ rest) = l0 ++ rest := by
  have hdig : isReDigit '<' = false := by decide
  have hwsl : isPyWs '<' = false := by decide
  have hTd : rest.takeWhile isReDigit = [] := by
    rcases hr with rfl | ⟨r', rfl⟩
    · rfl
    · rw [List.takeWhile_cons, hdig]
      simp
  have hDd : rest.dropWhile isReDigit = rest := by
    rcases hr with rfl | ⟨r', rfl⟩
    · rfl
    · rw [List.dropWhile_cons, hdig]
      simp
  have hTw : rest.takeWhile isPyWs = [] := by
    rcases hr with rfl | ⟨r', rfl⟩
    · rfl
    · rw [List.takeWhile_cons, hwsl]
      simp
  rcases hca : l0.dropWhile isReDigit with _ | ⟨c, r2⟩
  · obtain ⟨ht, hd2⟩ := takeWhile_append_of_all l0 rest hca
    simp only [numberedLine]
    rw [ht, hd2, hTd, hDd, List.append_nil]
    split_ifs with h1
    · rfl
    · rcases hr with rfl | ⟨r', rfl⟩
      · rfl
      · rfl
  · obtain ⟨ht, hd2⟩ := takeWhile_append_of_stop l0 rest r2 c hca
    simp only [numberedLine]
    rw [ht, hd2]
    split_ifs with h1
    · rfl
    · split
      · rename_i rest2 heq
        rw [List.cons_append] at heq
        injection heq with e1 e2
        subst e1
        subst e2
        have hw : (r2 ++ rest).takeWhile isPyWs = [] := by
          rcases hl2 : r2 with _ | ⟨cw2, r4⟩
          · simpa using hTw
          · by_cases hwd : isPyWs cw2 = true
            · exfalso
              have hnm : numMarkerB l0 = true := by
                simp only [numMarkerB, hca, hl2]
                rw [Bool.and_eq_true]
                constructor
                · simp only [Bool.not_eq_true']
                  exact Bool.eq_false_iff.mpr h1
                · exact hwd
              rw [hnm] at hm
              exact absurd hm (by decide)
            · rw [List.cons_append, List.takeWhile_cons]
              simp [hwd]
        rw [hw]
        simp
      · rfl

/-- The bullet rule leaves a line alone when its first original line
carries no bullet marker and the remainder, if any, begins with `<`. -/
theorem bulletLine_id_of_first (l0 rest : List Char)
    (hm : bulletMarkerB l0 = false)
    (hr : rest = [] ∨ ∃ r', rest = '<' :: r') :
    bulletLine (l0 ++ rest) = l0 ++ rest := by
  have hTw : rest.takeWhile isPyWs = [] := by
    rcases hr with rfl | ⟨r', rfl⟩
    · rfl
    · rw [List.takeWhile_cons]
      simp [show isPyWs '<' = false from by decide]
  rcases l0 with _ | ⟨c0, l0'⟩
  · rcases hr with rfl | ⟨r', rfl⟩
    · rfl
    · simp only [List.nil_append, bulletLine]
      rw [if_neg (by decide)]
  · simp only [List.cons_append, bulletLine]
    by_cases hb : (c0 = '•' || c0 = '-' || c0 = '*') = true
    · rw [if_pos hb]
      have hw : (l0' ++ rest).takeWhile isPyWs = [] := by
        rcases hl0 : l0' with _ | ⟨d, l0''⟩
        · simpa using hTw
        · by_cases hwd : isPyWs d = true
          · exfalso
            rw [hl0] at hm
            have hbm : bulletMarkerB (c0 :: d :: l0'') = true := by
              simp only [bulletMarkerB]
              rw [Bool.and_eq_true]
              exact ⟨hb, hwd⟩
            rw [hbm] at hm
            exact absurd hm (by decide)
          · rw [List.cons_append, List.takeWhile_cons]
            simp [hwd]
      rw [hw]
      simp
    · rw [if_neg hb]

/-! ## Claim theorems -/

/-- C7: `convert_markdown_to_html` is a total function (the embedding is
total by construction, matching the source's exception-free
substitutions); on every input containing no markup tokens its output is
the input with each newline replaced by an explicit `<br>` line break
and no other change. -/
theorem claimC7_render_plain_identity (t : List Char) (h : noMarkupB t = true) :
    convert_markdown_to_html t = nlToBr t := by
  have hlines : ∀ l ∈ splitNl t, lineOkB l = true := by
    simpa [noMarkupB, List.all_eq_true] using h
  have e3 : subLines h3Line t = t :=
    subLines_id (fun l hl => h3Line_id (lineOk_parts (hlines l hl)).1)
  have e2 : subLines h2Line t = t :=
    subLines_id (fun l hl => h2Line_id (lineOk_parts (hlines l hl)).2.1)
  have e1 : subLines h1Line t = t :=
    subLines_id (fun l hl => h1Line_id (lineOk_parts (hlines l hl)).2.2.1)
  have eb : boldSub t = t :=
    boldSubF_id _ t (fun l hl => (lineOk_parts (hlines l hl)).2.2.2.1)
  have ei : italicSub t = t :=
    spanSubF_id _ _ (by decide) _ t
      (fun l hl => (lineOk_parts (hlines l hl)).2.2.2.1)
  have ec : codeSub t = t :=
    spanSubF_id _ _ (by decide) _ t
      (fun l hl => (lineOk_parts (hlines l hl)).2.2.2.2.1)
  rcases hs : splitNl t with _ | ⟨l0, ls⟩
  · exact absurd hs (splitNl_ne_nil t)
  have hok0 := lineOk_parts (hlines l0 (by rw [hs]; exact List.mem_cons_self _ _))
  have hdecomp : ∃ rest, nlToBr t = l0 ++ rest ∧
      (rest = [] ∨ ∃ r', rest = '<' :: r') := by
    rw [nlToBr_eq_brJoin, hs]
    cases ls with
    | nil => exact ⟨[], by simp [brJoin], Or.inl rfl⟩
    | cons l1 ls1 =>
      refine ⟨'<' :: (("br>".toList) ++ brJoin (l1 :: ls1)), ?_, Or.inr ⟨_, rfl⟩⟩
      rw [show brJoin (l0 :: l1 :: ls1) =
          l0 ++ ("<br>".toList) ++ brJoin (l1 :: ls1) from by simp [brJoin]]
      rw [List.append_assoc]
      rfl
  obtain ⟨rest, hT, hform⟩ := hdecomp
  have hnum : subLines numberedLine (nlToBr t) = nlToBr t := by
    apply subLines_id
    intro l hl
    rw [splitNl_single (nlToBr_no_nl t)] at hl
    rcases List.mem_singleton.mp hl with rfl
    rw [hT]
    exact numberedLine_id_of_first l0 rest hok0.2.2.2.2.2.1 hform
  have hbul : subLines bulletLine (nlToBr t) = nlToBr t := by
    apply subLines_id
    intro l hl
    rw [splitNl_single (nlToBr_no_nl t)] at hl
    rcases List.mem_singleton.mp hl with rfl
    rw [hT]
    exact bulletLine_id_of_first l0 rest hok0.2.2.2.2.2.2 hform
  unfold convert_markdown_to_html
  rw [e3, e2, e1, eb, ei, ec, hnum, hbul]

/-- Witness for C7 at a concrete markup-free input. -/
theorem claimC7_witness :
    noMarkupB ("Hello\nworld.".toList) = true ∧
      convert_markdown_to_html ("Hello\nworld.".toList) =
        nlToBr ("Hello\nworld.".toList) :=
  ⟨by decide, claimC7_render_plain_identity ("Hello\nworld.".toList) (by decide)⟩

/-- C1: fed the three server-sent events
`data: \x7b"choices":[\x7b"delta":\x7b"content":"Hel"\x7d\x7d]\x7d`,
`data: \x7b"choices":[\x7b"delta":\x7b"content":"lo"\x7d\x7d]\x7d`,
`data: [DONE]`, the streaming worker emits `chunk_received("Hel")`,
`chunk_received("Hello")`, then `response_finished("Hello")`, in that
order with nothing after; and in general every chunk carries the
cumulative accumulated text (the running concatenation of the deltas),
not the incremental delta. -/
theorem claimC1_streaming_cumulative_chunks :
    StreamingWorker_run jsonClassify (.ok
        [("data: \x7b\"choices\":[\x7b\"delta\":\x7b\"content\":\"Hel\"\x7d\x7d]\x7d".toList),
         ("data: \x7b\"choices\":[\x7b\"delta\":\x7b\"content\":\"lo\"\x7d\x7d]\x7d".toList),
         ("data: [DONE]".toList)]) =
      [.chunk ("Hel".toList), .chunk ("Hello".toList), .finished ("Hello".toList)] ∧
    ∀ (classify : List Char → LineResult) (lines : List (List Char)),
      chunkTexts (StreamingWorker_run classify (.ok lines)) =
        cumulativeTexts [] (streamContents classify lines) := by
  constructor
  · decide
  · intro classify lines
    exact chunkTexts_runLines classify lines []

/-- C2: every run of the streaming worker is a sequence of chunk events
followed by exactly one terminal event (done or error, exactly once,
nothing after); a finished signal entails that some chunk was emitted
(so a stream with zero content-bearing events never signals done); and
a normally terminating stream with zero content-bearing events signals
exactly the "No response received" error. -/
theorem claimC2_single_terminal (classify : List Char → LineResult)
    (transport : Except (List Char) (List (List Char))) :
    (∃ pre last, StreamingWorker_run classify transport = pre ++ [last] ∧
        (∀ e ∈ pre, isChunkEv e = true) ∧ isTerminalEv last = true) ∧
      (∀ t, StreamEvent.finished t ∈ StreamingWorker_run classify transport →
        ∃ s, StreamEvent.chunk s ∈ StreamingWorker_run classify transport) ∧
      (∀ lines, transport = .ok lines → streamFatal classify lines = false →
        (∀ s, StreamEvent.chunk s ∉ StreamingWorker_run classify transport) →
        StreamingWorker_run classify transport =
          [.errored ("No response received".toList)]) := by
  refine ⟨?_, ?_, ?_⟩
  · cases transport with
    | error e => exact ⟨[], .errored e, rfl, by simp, rfl⟩
    | ok lines => exact runLines_shape classify lines []
  · cases transport with
    | error e =>
      intro t h
      simp [StreamingWorker_run] at h
    | ok lines =>
      intro t h
      rcases runLines_finished_content classify lines [] t h with h2 | h2
      · exact absurd rfl h2
      · by_contra hno
        push_neg at hno
        have hnil : chunkTexts (runLines classify [] lines) = [] :=
          chunkTexts_eq_nil_iff.mpr hno
        rw [chunkTexts_runLines classify lines []] at hnil
        exact h2 (cumulativeTexts_eq_nil_iff.mp hnil)
  · intro lines htr hfat hno
    subst htr
    have hnil : chunkTexts (runLines classify [] lines) = [] :=
      chunkTexts_eq_nil_iff.mpr hno
    rw [chunkTexts_runLines classify lines []] at hnil
    exact runLines_no_content_error classify lines hfat
      (cumulativeTexts_eq_nil_iff.mp hnil)

/-- Witness for C2 at a concrete classifier and stream. -/
theorem claimC2_witness :
    (∃ pre last,
        StreamingWorker_run (fun _ => LineResult.skip) (.ok []) = pre ++ [last] ∧
          (∀ e ∈ pre, isChunkEv e = true) ∧ isTerminalEv last = true) ∧
      StreamingWorker_run (fun _ => LineResult.skip) (.ok []) =
        [.errored ("No response received".toList)] :=
  ⟨(claimC2_single_terminal (fun _ => LineResult.skip) (.ok [])).1,
    (claimC2_single_terminal (fun _ => LineResult.skip) (.ok [])).2.2 [] rfl rfl
      (fun s hs => by
        simp [StreamingWorker_run, runLines, finishEvents] at hs)⟩

/-- C3: `parse_flashcards` applied to
`"Front: Q1\nBack: A1\n\nFront: Q2\nBack: A2"` under the basic grammar
yields exactly the two records `(Q1, A1)` and `(Q2, A2)`, in that
order. -/
theorem claimC3_parse_basic_two_records :
    parse_flashcards .basic ("Front: Q1\nBack: A1\n\nFront: Q2\nBack: A2".toList) =
      [.basicCard ("Q1".toList) ("A1".toList),
       .basicCard ("Q2".toList) ("A2".toList)] := by
  decide

/-- C10: in the basic grammar a new `Front:` line flushes a pending
complete record, so records need not be separated by a blank line:
`"Front: A\nBack: B\nFront: C\nBack: D"` parses to exactly the two
records `(A, B)` and `(C, D)`. -/
theorem claimC10_front_flushes_pending :
    parse_flashcards .basic ("Front: A\nBack: B\nFront: C\nBack: D".toList) =
      [.basicCard ("A".toList) ("B".toList),
       .basicCard ("C".toList) ("D".toList)] := by
  decide

/-- C8: the basic grammar drops records missing either half:
`"Front: Q only"` parses to the empty sequence, and in general every
returned basic record has a non-empty front and a non-empty back. -/
theorem claimC8_basic_records_complete :
    parse_flashcards .basic ("Front: Q only".toList) = [] ∧
    ∀ (text fr bk : List Char),
      Flashcard.basicCard fr bk ∈ parse_flashcards .basic text →
        fr ≠ [] ∧ bk ≠ [] := by
  refine ⟨by decide, ?_⟩
  intro text fr bk h
  exact parseBasicLoop_complete (splitNl text) [] [] false false
    goodBuf_nil goodBuf_nil fr bk h

/-- Witness for C8 at a concrete input. -/
theorem claimC8_witness :
    (Flashcard.basicCard ("Q1".toList) ("A1".toList) ∈
        parse_flashcards .basic ("Front: Q1\nBack: A1".toList)) ∧
      (("Q1".toList) ≠ [] ∧ ("A1".toList) ≠ []) :=
  ⟨by decide,
    claimC8_basic_records_complete.2 ("Front: Q1\nBack: A1".toList) _ _ (by decide)⟩

/-- C9 counterexample: the cloze parser starts a record at any line
containing the bare substring `\x7b\x7bc`; the input `"\x7b\x7bc foo"`
yields a record whose content has no full `\x7b\x7bcN::...\x7d\x7d`
span, refuting the claim that every cloze record contains one. -/
theorem claimC9_counterexample :
    parse_flashcards .cloze ("\x7b\x7bc foo".toList) =
        [.clozeCard ("\x7b\x7bc foo".toList)] ∧
      hasClozeSpanSpec ("\x7b\x7bc foo".toList) = false := by
  constructor
  · decide
  · decide

/-- C9 (amended): every record returned by the cloze parser contains the
substring `\x7b\x7bc` (the start-of-record trigger), though not
necessarily a full `\x7b\x7bcN::...\x7d\x7d` span. -/
theorem claimC9_cloze_records_contain_tag :
    ∀ (text content : List Char),
      Flashcard.clozeCard content ∈ parse_flashcards .cloze text →
        ("\x7b\x7bc".toList) <:+: content := by
  intro text content h
  exact parseClozeLoop_infix (splitNl text) [] (Or.inl rfl) content h

/-- Witness for the amended C9 at a concrete input. -/
theorem claimC9_witness :
    (Flashcard.clozeCard ("\x7b\x7bc1::foo\x7d\x7d bar".toList) ∈
        parse_flashcards .cloze ("\x7b\x7bc1::foo\x7d\x7d bar".toList)) ∧
      ("\x7b\x7bc".toList) <:+: ("\x7b\x7bc1::foo\x7d\x7d bar".toList) :=
  ⟨by decide,
    claimC9_cloze_records_contain_tag ("\x7b\x7bc1::foo\x7d\x7d bar".toList) _ (by decide)⟩

/-- C4: after a turn whose streaming session ends in error, the history
contains exactly the user message persisted by `send_message` before the
worker started, no assistant message was persisted for the turn, and the
controls are re-enabled (idle, a new send is accepted). -/
theorem claimC4_error_keeps_user_message (s : ChatState) (input err : List Char)
    (h : pyStrip input ≠ []) :
    (handle_streaming_error (send_message s input) err).history =
        s.history ++ [⟨.user, pyStrip input⟩] ∧
      (∀ m ∈ (handle_streaming_error (send_message s input) err).history,
        m ∉ s.history → m = ⟨Role.user, pyStrip input⟩) ∧
      (handle_streaming_error (send_message s input) err).sendEnabled = true := by
  have he : (pyStrip input).isEmpty = false := by
    cases hy : pyStrip input with
    | nil => exact absurd hy h
    | cons a t => simp
  refine ⟨?_, ?_, ?_⟩
  · simp [send_message, handle_streaming_error, he]
  · intro m hm hnot
    simp only [send_message, handle_streaming_error, he, Bool.false_eq_true,
      if_false] at hm
    rcases List.mem_append.mp hm with h1 | h2
    · exact absurd h1 hnot
    · simpa using h2
  · simp [send_message, handle_streaming_error, he]

/-- Witness for C4 at a concrete state and input. -/
theorem claimC4_witness :
    (handle_streaming_error (send_message ⟨[], true⟩ ("hi".toList)) ("boom".toList)).history =
        ([] : List ChatMessage) ++ [⟨.user, pyStrip ("hi".toList)⟩] ∧
      (∀ m ∈ (handle_streaming_error (send_message ⟨[], true⟩ ("hi".toList)) ("boom".toList)).history,
        m ∉ ([] : List ChatMessage) → m = ⟨Role.user, pyStrip ("hi".toList)⟩) ∧
      (handle_streaming_error (send_message ⟨[], true⟩ ("hi".toList)) ("boom".toList)).sendEnabled = true :=
  claimC4_error_keeps_user_message ⟨[], true⟩ ("hi".toList) ("boom".toList) (by decide)

/-- C6: at most one streaming turn is active per chat window: while the
send controls are disabled (awaiting a response) a `sendClicked` event
is rejected unchanged; a non-empty send disables the controls; and only
the worker's finished/errored signals re-enable sending. -/
theorem claimC6_single_active_turn (s : ChatState) (input t0 m0 : List Char) :
    (s.sendEnabled = false → chatStep s (.sendClicked input) = s) ∧
      (chatStep s (.streamFinished t0)).sendEnabled = true ∧
      (chatStep s (.streamErrored m0)).sendEnabled = true ∧
      (pyStrip input ≠ [] → s.sendEnabled = true →
        (chatStep s (.sendClicked input)).sendEnabled = false) ∧
      (∀ ev, s.sendEnabled = false → (chatStep s ev).sendEnabled = true →
        (∃ t, ev = UIEvent.streamFinished t) ∨ (∃ m, ev = UIEvent.streamErrored m)) := by
  refine ⟨?_, rfl, rfl, ?_, ?_⟩
  · intro h
    simp [chatStep, h]
  · intro hne hen
    have he : (pyStrip input).isEmpty = false := by
      cases hy : pyStrip input with
      | nil => exact absurd hy hne
      | cons a t => simp
    simp [chatStep, hen, send_message, he]
  · intro ev h hen
    cases ev with
    | sendClicked i => simp [chatStep, h] at hen
    | chunkArrived t => simp [chatStep, update_streaming_bubble, h] at hen
    | streamFinished t => exact Or.inl ⟨t, rfl⟩
    | streamErrored m => exact Or.inr ⟨m, rfl⟩

/-- Witness for C6 at concrete states and events. -/
theorem claimC6_witness :
    chatStep ⟨[], false⟩ (.sendClicked ("hi".toList)) = ⟨[], false⟩ ∧
      (chatStep ⟨[], false⟩ (.streamErrored ("e".toList))).sendEnabled = true ∧
      (chatStep ⟨[], true⟩ (.sendClicked ("hi".toList))).sendEnabled = false :=
  ⟨(claimC6_single_active_turn ⟨[], false⟩ ("hi".toList) [] []).1 rfl,
    (claimC6_single_active_turn ⟨[], false⟩ ("hi".toList) [] ("e".toList)).2.2.1,
    (claimC6_single_active_turn ⟨[], true⟩ ("hi".toList) [] []).2.2.2.1 (by decide) rfl⟩

/-- The success count of the commit loop equals the number of records
whose store-creation call succeeds, independent of where failures
occur. -/
theorem create_flashcards_loop_count {α : Type} (create : Nat → Flashcard → Option α) :
    ∀ (i : Nat) (cards : List Flashcard),
      (create_flashcards_loop create i cards).2 =
        (List.enumFrom i cards).countP (fun p => (create p.1 p.2).isSome) := by
  intro i cards
  induction cards generalizing i with
  | nil => simp [create_flashcards_loop, List.enumFrom]
  | cons c rest ih =>
    simp only [create_flashcards_loop, List.enumFrom, List.countP_cons]
    cases hc : create i c with
    | some a => simp [hc, ih (i + 1), Nat.add_comm]
    | none => simp [hc, ih (i + 1)]

/-- C5: the batch commit loop catches a single record's creation failure
and continues; the reported count is exactly the number of records
actually created.  With two selected records where the second creation
fails, it creates the first record's note and reports one. -/
theorem claimC5_commit_skips_failures :
    (∀ (α : Type) (create : Nat → Flashcard → Option α) (cards : List Flashcard),
      (create_flashcards_loop create 0 cards).2 =
        cards.enum.countP (fun p => (create p.1 p.2).isSome)) ∧
    create_flashcards_loop
        (fun i _ => if i = 0 then some 7 else (none : Option Nat)) 0
        [.basicCard ("Q1".toList) ("A1".toList), .basicCard ("Q2".toList) ("A2".toList)] =
      ([7], 1) := by
  constructor
  · intro α create cards
    exact create_flashcards_loop_count create 0 cards
  · decide

end AnkiAIChat
